import Mathlib

/-!
Verification of the wine-quality end-to-end ML workflow notebook.

The notebook's classes (WineDataProcessor, SklearnModelWrapper,
WineQualityModel, MLflowExperiment) are thin wrappers around pandas,
scikit-learn, mlflow and hyperopt.  This file gives a shallow embedding of
the behaviour those wrappers rely on:

* the quality-label binarization performed by `load_data`;
* `train_test_split` (scikit-learn semantics: fractional `train_size` is
  floored, fractional `test_size` is ceiled, the complement fills the other
  set, fractions outside (0,1) and empty resulting train sets raise), used
  twice by `split_data` with the fixed seed 123;
* the tracking store: runs carrying logged params/metrics, `search_runs`
  returning runs sorted by the requested key (default: start time
  descending; for best-run selection: the `auc` metric descending);
* the model registry: `register_model` creating a fresh version and
  `set_registered_model_alias` pointing an alias at it.

Machine-learning numerics (the function a fitted random forest has
learned) are abstracted: a fitted model carries its training data and
predicts the empirical positive rate.  None of the verified properties
depend on the learned values, only on fitted/unfitted state and on the
shape of the returned predictions.
-/

namespace WineSpec

/-- `load_data`'s label rewrite: `data['quality'] = (data.quality >= 7).astype(int)`.
Wine quality scores are integers, and the boolean is cast back to an integer. -/
def binarizeQuality (q : ℤ) : ℤ := if 7 ≤ q then 1 else 0

/-- The binarization applied to the whole quality column. -/
def binarizeColumn (l : List ℤ) : List ℤ := l.map binarizeQuality

/-- Model of numpy's seeded shuffling: a deterministic permutation of the rows
driven by the seed.  The concrete permutation numpy produces is irrelevant to
every property verified here (they hold for any permutation); it is modelled
as a seed-dependent rotation. -/
def shuffle (seed : ℕ) (l : List α) : List α := l.rotate (seed % (l.length + 1))

/-- The seed a scikit-learn call actually uses: the `random_state` argument
when one is given, otherwise the ambient global generator state. -/
def usedSeed (randomState : Option ℕ) (globalState : ℕ) : ℕ :=
  randomState.getD globalState

/-- `sklearn.model_selection.train_test_split` with a fractional `train_size`
and no `test_size`: `n_train = floor(train_size * n)`, the complement becomes
the test side.  A float `train_size` outside (0, 1) raises, as does an empty
resulting train set.  The shuffled order puts the test indices first, the
train indices after them, mirroring `ShuffleSplit`. -/
def trainTestSplitByTrainSize (randomState : Option ℕ) (globalState : ℕ)
    (trainSize : ℚ) (l : List α) : Except String (List α × List α) :=
  if 0 < trainSize ∧ trainSize < 1 then
    let n := l.length
    let nTrain := (⌊trainSize * (n : ℚ)⌋).toNat
    let nTest := n - nTrain
    if nTrain = 0 then
      .error "the resulting train set will be empty"
    else
      let sh := shuffle (usedSeed randomState globalState) l
      .ok (sh.drop nTest, sh.take nTest)
  else
    .error "train_size should be in the (0, 1) range"

/-- `train_test_split` with a fractional `test_size` and no `train_size`:
`n_test = ceil(test_size * n)`, the complement becomes the train side. -/
def trainTestSplitByTestSize (randomState : Option ℕ) (globalState : ℕ)
    (testSize : ℚ) (l : List α) : Except String (List α × List α) :=
  if 0 < testSize ∧ testSize < 1 then
    let n := l.length
    let nTest := (⌈testSize * (n : ℚ)⌉).toNat
    let nTrain := n - nTest
    if nTrain = 0 then
      .error "the resulting train set will be empty"
    else
      let sh := shuffle (usedSeed randomState globalState) l
      .ok (sh.drop nTest, sh.take nTest)
  else
    .error "test_size should be in the (0, 1) range"

namespace WineDataProcessor

/-- `WineDataProcessor.split_data`: two chained `train_test_split` calls, both
with `random_state=123`.  The first keeps `train_size = 1 - test_size -
val_size`; the second is called on the remainder with
`test_size = val_size / (test_size + val_size)`, and its train side is bound
to `X_val`, its test side to `X_test`.  `globalState` is the ambient numpy
global-generator state, unused because the seed is fixed. -/
def split_data (data : List α) (test_size val_size : ℚ) (globalState : ℕ) :
    Except String (List α × List α × List α) :=
  match trainTestSplitByTrainSize (some 123) globalState (1 - test_size - val_size) data with
  | .error e => .error e
  | .ok (xTrain, xRem) =>
    match trainTestSplitByTestSize (some 123) globalState
        (val_size / (test_size + val_size)) xRem with
    | .error e => .error e
    | .ok (xVal, xTest) => .ok (xTrain, xVal, xTest)

end WineDataProcessor

/-- Applying the quality binarization to an already-binarized value always
gives 0: binarized values are 0 or 1, and both are below the threshold 7. -/
theorem binarizeQuality_twice (q : ℤ) :
    binarizeQuality (binarizeQuality q) = 0 := by
  unfold binarizeQuality
  split <;> norm_num

/-- Binarized values are 0 exactly on qualities below the threshold. -/
theorem binarizeQuality_eq_zero_iff (q : ℤ) :
    binarizeQuality q = 0 ↔ q < 7 := by
  unfold binarizeQuality
  split <;> omega

/-- Applying the binarization twice to a column zeroes it out. -/
theorem binarizeColumn_twice (l : List ℤ) :
    binarizeColumn (binarizeColumn l) = List.replicate l.length 0 := by
  induction l with
  | nil => rfl
  | cons q l ih =>
    simpa [binarizeColumn, List.replicate_succ, binarizeQuality_twice q]
      using ih

/-- C2 counterexample: on a dataset with a single raw quality score 7, one
application of the binarization gives label 1, a second application turns it
into 0, so the binarization is not idempotent. -/
theorem binarize_not_idempotent :
    binarizeColumn (binarizeColumn [7]) ≠ binarizeColumn [7] := by
  decide

/-- C2 (amended): the second application of the label binarization maps every
already-binarized column to the all-zero column, so applying it twice agrees
with applying it once exactly when every raw quality score is below the
threshold 7 (i.e. when the once-binarized column is already all zeros). -/
theorem binarize_twice_amended (l : List ℤ) :
    binarizeColumn (binarizeColumn l) = List.replicate l.length 0 ∧
    (binarizeColumn (binarizeColumn l) = binarizeColumn l ↔ ∀ q ∈ l, q < 7) := by
  refine ⟨binarizeColumn_twice l, ?_⟩
  rw [binarizeColumn_twice l, eq_comm, List.eq_replicate_iff]
  constructor
  · intro h q hq
    rw [← binarizeQuality_eq_zero_iff]
    exact h.2 _ (List.mem_map_of_mem binarizeQuality hq)
  · intro h
    refine ⟨by simp [binarizeColumn], ?_⟩
    intro b hb
    rcases List.mem_map.mp hb with ⟨q, hq, rfl⟩
    exact (binarizeQuality_eq_zero_iff q).mpr (h q hq)

/-- C4: whenever `test_size + val_size ≥ 1` the requested train fraction
`1 - test_size - val_size` is not positive, the first `train_test_split`
call rejects it, and `split_data` surfaces the error to the caller. -/
theorem split_data_fails_of_ratios_ge_one (l : List ℕ) (ts vs : ℚ) (g : ℕ)
    (h : 1 ≤ ts + vs) :
    WineDataProcessor.split_data l ts vs g =
      .error "train_size should be in the (0, 1) range" := by
  have hneg : ¬ (0 < 1 - ts - vs ∧ 1 - ts - vs < 1) := by
    rintro ⟨h1, -⟩
    linarith
  unfold WineDataProcessor.split_data trainTestSplitByTrainSize
  rw [if_neg hneg]

/-- C4 witness: the ratio pair (0.5, 0.5) leaves no train fraction and
`split_data` fails on it. -/
theorem split_data_fails_witness :
    (1 : ℚ) ≤ 1/2 + 1/2 ∧
    WineDataProcessor.split_data [0, 1, 2] (1/2) (1/2) 0 =
      .error "train_size should be in the (0, 1) range" :=
  ⟨by norm_num,
   split_data_fails_of_ratios_ge_one [0, 1, 2] (1/2) (1/2) 0 (by norm_num)⟩

/-- C5: `split_data` hard-codes `random_state=123` in both
`train_test_split` calls, so its result does not depend on the ambient
global generator state: two calls on the same data and ratios, at any two
global states, return identical partitions. -/
theorem split_data_deterministic (l : List ℕ) (ts vs : ℚ) (g₁ g₂ : ℕ) :
    WineDataProcessor.split_data l ts vs g₁ =
    WineDataProcessor.split_data l ts vs g₂ := rfl

/-- Shuffling permutes the rows. -/
theorem shuffle_perm (seed : ℕ) (l : List α) : List.Perm (shuffle seed l) l :=
  l.rotate_perm _

/-- Shuffling keeps the number of rows. -/
theorem shuffle_length (seed : ℕ) (l : List α) :
    (shuffle seed l).length = l.length :=
  (shuffle_perm seed l).length_eq

/-- Shuffling a duplicate-free list of rows stays duplicate-free. -/
theorem shuffle_nodup (seed : ℕ) {l : List α} (h : l.Nodup) :
    (shuffle seed l).Nodup :=
  ((shuffle_perm seed l).nodup_iff).mpr h

/-- Inversion for a successful `train_test_split` with a fractional
`train_size`: the train side is the shuffled list with the first
`n - ⌊train_size * n⌋` rows removed, the test side is those rows, and the
train side is not empty. -/
theorem trainTestSplitByTrainSize_ok {rs : Option ℕ} {g : ℕ} {t : ℚ}
    {l a b : List α} (hcond : 0 < t ∧ t < 1)
    (h : trainTestSplitByTrainSize rs g t l = .ok (a, b)) :
    (⌊t * (l.length : ℚ)⌋).toNat ≠ 0 ∧
    a = (shuffle (usedSeed rs g) l).drop
          (l.length - (⌊t * (l.length : ℚ)⌋).toNat) ∧
    b = (shuffle (usedSeed rs g) l).take
          (l.length - (⌊t * (l.length : ℚ)⌋).toNat) := by
  simp only [trainTestSplitByTrainSize] at h
  rw [if_pos hcond] at h
  by_cases h0 : (⌊t * (l.length : ℚ)⌋).toNat = 0
  · rw [if_pos h0] at h
    cases h
  · rw [if_neg h0] at h
    simp only [Except.ok.injEq, Prod.mk.injEq] at h
    exact ⟨h0, h.1.symm, h.2.symm⟩

/-- Inversion for a successful `train_test_split` with a fractional
`test_size`: the test side is the first `⌈test_size * n⌉` shuffled rows, the
train side is the rest, and the train side is not empty. -/
theorem trainTestSplitByTestSize_ok {rs : Option ℕ} {g : ℕ} {f : ℚ}
    {l a b : List α} (hcond : 0 < f ∧ f < 1)
    (h : trainTestSplitByTestSize rs g f l = .ok (a, b)) :
    l.length - (⌈f * (l.length : ℚ)⌉).toNat ≠ 0 ∧
    a = (shuffle (usedSeed rs g) l).drop ((⌈f * (l.length : ℚ)⌉).toNat) ∧
    b = (shuffle (usedSeed rs g) l).take ((⌈f * (l.length : ℚ)⌉).toNat) := by
  simp only [trainTestSplitByTestSize] at h
  rw [if_pos hcond] at h
  by_cases h0 : l.length - (⌈f * (l.length : ℚ)⌉).toNat = 0
  · rw [if_pos h0] at h
    cases h
  · rw [if_neg h0] at h
    simp only [Except.ok.injEq, Prod.mk.injEq] at h
    exact ⟨h0, h.1.symm, h.2.symm⟩

/-- Arithmetic of the two-stage split: with `k` the first-stage train count
(floored train fraction of `n`), `m` the remainder, and `j` the second-stage
test count (ceiled `val/(test+val)` fraction of `m`), the counts are within
rounding of `(1-ts-vs)·n` for train, `ts·n` for the second-stage train side
(bound to validation) and `vs·n` for the second-stage test side. -/
theorem split_counts {ts vs : ℚ} {n k m j : ℕ}
    (hts : 0 < ts) (hvs : 0 < vs) (hsum : ts + vs < 1)
    (hk : k = (⌊(1 - ts - vs) * (n : ℚ)⌋).toNat)
    (hm : m = n - k)
    (hj : j = (⌈(vs / (ts + vs)) * (m : ℚ)⌉).toNat) :
    k ≤ n ∧ j ≤ m ∧
    |(k : ℚ) - (1 - ts - vs) * n| ≤ 1 ∧
    |((m - j : ℕ) : ℚ) - ts * n| ≤ 2 ∧
    |(j : ℚ) - vs * n| ≤ 2 := by
  have hn0 : (0:ℚ) ≤ (n:ℚ) := Nat.cast_nonneg n
  have htpos : 0 < 1 - ts - vs := by linarith
  have hcpos : (0:ℚ) < ts + vs := by linarith
  have hcne : ts + vs ≠ 0 := ne_of_gt hcpos
  have hfpos : 0 < vs / (ts + vs) := div_pos hvs hcpos
  have hf1 : vs / (ts + vs) < 1 := by
    rw [div_lt_one hcpos]
    linarith
  -- the first-stage floor
  have hprod0 : (0:ℚ) ≤ (1 - ts - vs) * n := by positivity
  have hflnn : 0 ≤ ⌊(1 - ts - vs) * (n:ℚ)⌋ := Int.floor_nonneg.mpr hprod0
  have hkq : (k : ℚ) = ((⌊(1 - ts - vs) * (n:ℚ)⌋ : ℤ) : ℚ) := by
    rw [hk]
    exact_mod_cast congrArg (fun z : ℤ => (z : ℚ)) (Int.toNat_of_nonneg hflnn)
  have hk_le : (k : ℚ) ≤ (1 - ts - vs) * n := by
    rw [hkq]
    exact Int.floor_le _
  have hk_gt : (1 - ts - vs) * n - 1 < (k : ℚ) := by
    rw [hkq]
    exact Int.sub_one_lt_floor _
  have htn_le : (1 - ts - vs) * (n:ℚ) ≤ n := by
    nlinarith
  have hkn : k ≤ n := by
    exact_mod_cast hk_le.trans htn_le
  have hmq : (m : ℚ) = (n : ℚ) - k := by
    rw [hm]
    exact Nat.cast_sub hkn
  have hm_ge : (ts + vs) * (n:ℚ) ≤ m := by
    rw [hmq]
    nlinarith
  have hm_lt : (m:ℚ) < (ts + vs) * n + 1 := by
    rw [hmq]
    nlinarith
  have hm0 : (0:ℚ) ≤ (m:ℚ) := Nat.cast_nonneg m
  -- the second-stage ceiling
  have hprod1 : (0:ℚ) ≤ vs / (ts + vs) * m := by positivity
  have hclnn : 0 ≤ ⌈vs / (ts + vs) * (m:ℚ)⌉ := Int.ceil_nonneg hprod1
  have hjq : (j : ℚ) = ((⌈vs / (ts + vs) * (m:ℚ)⌉ : ℤ) : ℚ) := by
    rw [hj]
    exact_mod_cast congrArg (fun z : ℤ => (z : ℚ)) (Int.toNat_of_nonneg hclnn)
  have hj_ge : vs / (ts + vs) * (m:ℚ) ≤ j := by
    rw [hjq]
    exact Int.le_ceil _
  have hj_lt : (j : ℚ) < vs / (ts + vs) * m + 1 := by
    rw [hjq]
    exact Int.ceil_lt_add_one _
  have hfm_ge : vs * (n:ℚ) ≤ vs / (ts + vs) * m := by
    have h1 : vs / (ts + vs) * ((ts + vs) * (n:ℚ)) ≤ vs / (ts + vs) * m :=
      mul_le_mul_of_nonneg_left hm_ge hfpos.le
    have h2 : vs / (ts + vs) * ((ts + vs) * (n:ℚ)) = vs * n := by
      field_simp
      ring
    linarith
  have hfm_lt : vs / (ts + vs) * (m:ℚ) < vs * n + 1 := by
    have h1 : vs / (ts + vs) * (m:ℚ) < vs / (ts + vs) * ((ts + vs) * n + 1) :=
      (mul_lt_mul_left hfpos).mpr hm_lt
    have h2 : vs / (ts + vs) * ((ts + vs) * (n:ℚ) + 1) = vs * n + vs / (ts + vs) := by
      field_simp
      ring
    linarith
  have hjm : j ≤ m := by
    have hceil : ⌈vs / (ts + vs) * (m:ℚ)⌉ ≤ (m : ℤ) := by
      rw [Int.ceil_le]
      push_cast
      nlinarith
    rw [hj]
    exact Int.toNat_le.mpr hceil
  have hmjq : ((m - j : ℕ) : ℚ) = (m : ℚ) - j := Nat.cast_sub hjm
  refine ⟨hkn, hjm, ?_, ?_, ?_⟩
  · rw [abs_le]
    constructor <;> linarith
  · rw [abs_le, hmjq]
    have hid : (ts + vs) * (n:ℚ) = ts * n + vs * n := by ring
    constructor <;> linarith
  · rw [abs_le]
    constructor <;> linarith

/-- Master description of a successful `split_data` call with positive ratios
leaving a positive train fraction: the three returned row lists are pairwise
disjoint (for duplicate-free input), their sizes sum to the input row count,
the returned test set receives the ceiled `val_size/(test_size+val_size)`
share of the second-stage input, and the sizes are within rounding of the
`1-ts-vs` share for train, the `ts` share for validation and the `vs` share
for test (validation and test shares swapped relative to parameter names). -/
theorem split_data_ok_master {α : Type} {l : List α} {ts vs : ℚ} {g : ℕ}
    {tr va te : List α}
    (hts : 0 < ts) (hvs : 0 < vs) (hsum : ts + vs < 1) (hnd : l.Nodup)
    (hok : WineDataProcessor.split_data l ts vs g = .ok (tr, va, te)) :
    tr.Disjoint va ∧ tr.Disjoint te ∧ va.Disjoint te ∧
    tr.length + va.length + te.length = l.length ∧
    te.length = (⌈(vs / (ts + vs)) * ((va.length + te.length : ℕ) : ℚ)⌉).toNat ∧
    |(tr.length : ℚ) - (1 - ts - vs) * l.length| ≤ 1 ∧
    |(va.length : ℚ) - ts * l.length| ≤ 2 ∧
    |(te.length : ℚ) - vs * l.length| ≤ 2 := by
  have hcpos : (0:ℚ) < ts + vs := by linarith
  have hc1 : 0 < 1 - ts - vs ∧ 1 - ts - vs < 1 := ⟨by linarith, by linarith⟩
  have hc2 : 0 < vs / (ts + vs) ∧ vs / (ts + vs) < 1 :=
    ⟨div_pos hvs hcpos, by rw [div_lt_one hcpos]; linarith⟩
  unfold WineDataProcessor.split_data at hok
  split at hok
  · cases hok
  next xTrain xRem heq1 =>
    split at hok
    · cases hok
    next xVal xTest heq2 =>
      simp only [Except.ok.injEq, Prod.mk.injEq] at hok
      obtain ⟨h1, h2, h3⟩ := hok
      subst h1 h2 h3
      obtain ⟨hk0, htr, hrem⟩ := trainTestSplitByTrainSize_ok hc1 heq1
      obtain ⟨hv0, hva, hte⟩ := trainTestSplitByTestSize_ok hc2 heq2
      obtain ⟨hkn, hjm, hb1, hb2, hb3⟩ :=
        split_counts (n := l.length)
          (k := (⌊(1 - ts - vs) * (l.length : ℚ)⌋).toNat)
          (m := l.length - (⌊(1 - ts - vs) * (l.length : ℚ)⌋).toNat)
          (j := (⌈(vs / (ts + vs)) *
            ((l.length - (⌊(1 - ts - vs) * (l.length : ℚ)⌋).toNat : ℕ) : ℚ)⌉).toNat)
          hts hvs hsum rfl rfl rfl
      -- abbreviations
      set k := (⌊(1 - ts - vs) * (l.length : ℚ)⌋).toNat with hkdef
      set m := l.length - k with hmdef
      set j := (⌈(vs / (ts + vs)) * ((m : ℕ) : ℚ)⌉).toNat with hjdef
      -- lengths of the pieces
      have hsh1len : (shuffle (usedSeed (some 123) g) l).length = l.length :=
        shuffle_length _ _
      have hremlen : xRem.length = m := by
        rw [hrem, List.length_take, hsh1len]
        omega
      have hsh2len : (shuffle (usedSeed (some 123) g) xRem).length = m := by
        rw [shuffle_length, hremlen]
      have htrlen : xTrain.length = k := by
        rw [htr, List.length_drop, hsh1len]
        omega
      have htelen : xTest.length = j := by
        rw [hte, List.length_take, hsh2len, hremlen, ← hjdef]
        exact Nat.min_eq_left hjm
      have hvalen : xVal.length = m - j := by
        rw [hva, List.length_drop, hsh2len, hremlen, ← hjdef]
      -- nodup facts
      have hnd1 : (shuffle (usedSeed (some 123) g) l).Nodup :=
        shuffle_nodup _ hnd
      have hndrem : xRem.Nodup := by
        rw [hrem]
        exact hnd1.sublist (List.take_sublist _ _)
      have hnd2 : (shuffle (usedSeed (some 123) g) xRem).Nodup :=
        shuffle_nodup _ hndrem
      -- membership transfers
      have hva_sub : ∀ a, a ∈ xVal → a ∈ xRem := by
        intro a ha
        rw [hva] at ha
        exact ((shuffle_perm _ xRem).mem_iff).mp (List.drop_subset _ _ ha)
      have hte_sub : ∀ a, a ∈ xTest → a ∈ xRem := by
        intro a ha
        rw [hte] at ha
        exact ((shuffle_perm _ xRem).mem_iff).mp (List.take_subset _ _ ha)
      -- first-stage disjointness: the remainder and the train side
      have hD1 : xRem.Disjoint xTrain := by
        rw [hrem, htr]
        exact List.disjoint_take_drop hnd1 (le_refl _)
      have hD2 : xTest.Disjoint xVal := by
        rw [hte, hva]
        exact List.disjoint_take_drop hnd2 (le_refl _)
      refine ⟨?_, ?_, ?_, ?_, ?_, ?_, ?_, ?_⟩
      · intro a ha hva'
        exact hD1 (hva_sub a hva') ha
      · intro a ha hte'
        exact hD1 (hte_sub a hte') ha
      · intro a ha hte'
        exact hD2 hte' ha
      · rw [htrlen, hvalen, htelen]
        omega
      · have hsum' : xVal.length + xTest.length = m := by
          rw [hvalen, htelen]
          omega
        rw [hsum', htelen]
      · rw [htrlen]
        exact hb1
      · rw [hvalen]
        exact hb2
      · rw [htelen]
        exact hb3

/-- Concrete evaluation: `split_data` on 20 rows with the ratio pair
(test=1/5, val=1/5). -/
theorem split_data_range20_even :
    WineDataProcessor.split_data (List.range 20) (1/5) (1/5) 0 =
      .ok ([6, 7, 8, 9, 10, 11, 12, 13, 14, 15, 16, 17],
           [0, 1, 2, 3], [4, 5, 18, 19]) := by
  have hc1 : (0:ℚ) < 1 - 1/5 - 1/5 ∧ (1 - 1/5 - 1/5 : ℚ) < 1 := by norm_num
  have hf1 : (⌊(1 - 1/5 - 1/5 : ℚ) * ((List.range 20).length : ℚ)⌋).toNat = 12 := by
    norm_num [List.length_range]
    rfl
  have hstage1 : trainTestSplitByTrainSize (some 123) 0 (1 - 1/5 - 1/5 : ℚ)
      (List.range 20) =
      .ok ([6, 7, 8, 9, 10, 11, 12, 13, 14, 15, 16, 17],
           [18, 19, 0, 1, 2, 3, 4, 5]) := by
    simp only [trainTestSplitByTrainSize, if_pos hc1, hf1]
    rw [if_neg (by decide : ¬ (12 = 0))]
    rfl
  have hc2 : (0:ℚ) < (1/5 : ℚ) / (1/5 + 1/5) ∧ ((1/5 : ℚ) / (1/5 + 1/5)) < 1 := by
    norm_num
  have hf2 : (⌈((1/5 : ℚ) / (1/5 + 1/5)) *
      ((([18, 19, 0, 1, 2, 3, 4, 5] : List ℕ).length : ℕ) : ℚ)⌉).toNat = 4 := by
    norm_num
    rfl
  have hstage2 : trainTestSplitByTestSize (some 123) 0 ((1/5 : ℚ) / (1/5 + 1/5))
      ([18, 19, 0, 1, 2, 3, 4, 5] : List ℕ) = .ok ([0, 1, 2, 3], [4, 5, 18, 19]) := by
    simp only [trainTestSplitByTestSize, if_pos hc2, hf2]
    rw [if_neg (by decide : ¬ (([18, 19, 0, 1, 2, 3, 4, 5] : List ℕ).length - 4 = 0))]
    rfl
  simp only [WineDataProcessor.split_data, hstage1, hstage2]

/-- Concrete evaluation: `split_data` on 20 rows with the skewed ratio pair
(test=4/10, val=1/10): the returned validation set gets 8 rows and the
returned test set 2 — the shares belonging to the other name. -/
theorem split_data_range20_skewed :
    WineDataProcessor.split_data (List.range 20) (4/10) (1/10) 0 =
      .ok ([8, 9, 10, 11, 12, 13, 14, 15, 16, 17],
           [2, 3, 4, 5, 6, 7, 18, 19], [0, 1]) := by
  have hc1 : (0:ℚ) < 1 - 4/10 - 1/10 ∧ (1 - 4/10 - 1/10 : ℚ) < 1 := by norm_num
  have hf1 : (⌊(1 - 4/10 - 1/10 : ℚ) * ((List.range 20).length : ℚ)⌋).toNat = 10 := by
    norm_num [List.length_range]
    rfl
  have hstage1 : trainTestSplitByTrainSize (some 123) 0 (1 - 4/10 - 1/10 : ℚ)
      (List.range 20) =
      .ok ([8, 9, 10, 11, 12, 13, 14, 15, 16, 17],
           [18, 19, 0, 1, 2, 3, 4, 5, 6, 7]) := by
    simp only [trainTestSplitByTrainSize, if_pos hc1, hf1]
    rw [if_neg (by decide : ¬ (10 = 0))]
    rfl
  have hc2 : (0:ℚ) < (1/10 : ℚ) / (4/10 + 1/10) ∧ ((1/10 : ℚ) / (4/10 + 1/10)) < 1 := by
    norm_num
  have hf2 : (⌈((1/10 : ℚ) / (4/10 + 1/10)) *
      ((([18, 19, 0, 1, 2, 3, 4, 5, 6, 7] : List ℕ).length : ℕ) : ℚ)⌉).toNat = 2 := by
    norm_num
    rfl
  have hstage2 : trainTestSplitByTestSize (some 123) 0 ((1/10 : ℚ) / (4/10 + 1/10))
      ([18, 19, 0, 1, 2, 3, 4, 5, 6, 7] : List ℕ) =
      .ok ([2, 3, 4, 5, 6, 7, 18, 19], [0, 1]) := by
    simp only [trainTestSplitByTestSize, if_pos hc2, hf2]
    rw [if_neg
      (by decide : ¬ (([18, 19, 0, 1, 2, 3, 4, 5, 6, 7] : List ℕ).length - 2 = 0))]
    rfl
  simp only [WineDataProcessor.split_data, hstage1, hstage2]

/-- C3 counterexample: at the valid ratio triple (train=1/2, test=4/10,
val=1/10) on 20 distinct rows, `split_data` succeeds but the returned
validation set has 8 rows where a size proportional to its ratio 1/10 would
be 2 within rounding, and the returned test set has 2 rows where its
proportional size would be 8: the sizes are not proportional to the ratios
under their own names. -/
theorem split_not_proportional_counterexample :
    ∃ tr va te,
      WineDataProcessor.split_data (List.range 20) (4/10) (1/10) 0 =
        .ok (tr, va, te) ∧
      ¬ (|(va.length : ℚ) - (1/10) * ((List.range 20).length : ℚ)| ≤ 2) ∧
      ¬ (|(te.length : ℚ) - (4/10) * ((List.range 20).length : ℚ)| ≤ 2) := by
  refine ⟨_, _, _, split_data_range20_skewed, ?_, ?_⟩ <;>
    simp [List.length_range] <;> norm_num [abs_le]

/-- C3 (amended): for every ratio pair with positive test and validation
fractions leaving a positive train fraction, a successful `split_data` on a
duplicate-free row list returns three pairwise-disjoint row lists whose sizes
sum to the input row count; the train size is within rounding of its ratio
share, while the validation and test sizes are within rounding of the
`test_size` and `val_size` shares respectively — the two shares are swapped
relative to the parameter names by the second split stage. -/
theorem split_partitions_amended {α : Type} {l : List α} {ts vs : ℚ} {g : ℕ}
    {tr va te : List α}
    (hts : 0 < ts) (hvs : 0 < vs) (hsum : ts + vs < 1) (hnd : l.Nodup)
    (hok : WineDataProcessor.split_data l ts vs g = .ok (tr, va, te)) :
    tr.Disjoint va ∧ tr.Disjoint te ∧ va.Disjoint te ∧
    tr.length + va.length + te.length = l.length ∧
    |(tr.length : ℚ) - (1 - ts - vs) * l.length| ≤ 1 ∧
    |(va.length : ℚ) - ts * l.length| ≤ 2 ∧
    |(te.length : ℚ) - vs * l.length| ≤ 2 := by
  obtain ⟨d1, d2, d3, hlen, -, b1, b2, b3⟩ :=
    split_data_ok_master hts hvs hsum hnd hok
  exact ⟨d1, d2, d3, hlen, b1, b2, b3⟩

/-- C3 witness: the amended partition theorem applied to 20 distinct rows
with the ratio pair (1/5, 1/5). -/
theorem split_partitions_amended_witness :
    (0:ℚ) < 1/5 ∧ (1/5 : ℚ) + 1/5 < 1 ∧ (List.range 20).Nodup ∧
    (([6, 7, 8, 9, 10, 11, 12, 13, 14, 15, 16, 17] : List ℕ).Disjoint [0, 1, 2, 3] ∧
     ([6, 7, 8, 9, 10, 11, 12, 13, 14, 15, 16, 17] : List ℕ).Disjoint [4, 5, 18, 19] ∧
     ([0, 1, 2, 3] : List ℕ).Disjoint [4, 5, 18, 19] ∧
     ([6, 7, 8, 9, 10, 11, 12, 13, 14, 15, 16, 17] : List ℕ).length +
       ([0, 1, 2, 3] : List ℕ).length + ([4, 5, 18, 19] : List ℕ).length =
       (List.range 20).length ∧
     |((([6, 7, 8, 9, 10, 11, 12, 13, 14, 15, 16, 17] : List ℕ).length : ℚ)) -
       (1 - 1/5 - 1/5) * ((List.range 20).length : ℚ)| ≤ 1 ∧
     |((([0, 1, 2, 3] : List ℕ).length : ℚ)) -
       (1/5) * ((List.range 20).length : ℚ)| ≤ 2 ∧
     |((([4, 5, 18, 19] : List ℕ).length : ℚ)) -
       (1/5) * ((List.range 20).length : ℚ)| ≤ 2) :=
  ⟨by norm_num, by norm_num, List.nodup_range 20,
   split_partitions_amended (by norm_num) (by norm_num) (by norm_num)
     (List.nodup_range 20) split_data_range20_even⟩

/-- C9: in the second stage of `split_data`, the returned test set receives
the ceiled `val_size/(test_size+val_size)` fraction of the remaining rows and
the returned validation set the complement; consequently the validation size
tracks the `test_size` share of the whole dataset and the test size the
`val_size` share, within rounding — swapped relative to the parameter
names. -/
theorem split_second_stage_swapped {α : Type} {l : List α} {ts vs : ℚ} {g : ℕ}
    {tr va te : List α}
    (hts : 0 < ts) (hvs : 0 < vs) (hsum : ts + vs < 1) (hnd : l.Nodup)
    (hok : WineDataProcessor.split_data l ts vs g = .ok (tr, va, te)) :
    te.length = (⌈(vs / (ts + vs)) * ((va.length + te.length : ℕ) : ℚ)⌉).toNat ∧
    |(va.length : ℚ) - ts * l.length| ≤ 2 ∧
    |(te.length : ℚ) - vs * l.length| ≤ 2 := by
  obtain ⟨-, -, -, -, halloc, -, b2, b3⟩ :=
    split_data_ok_master hts hvs hsum hnd hok
  exact ⟨halloc, b2, b3⟩

/-- C9 witness: the swapped-allocation theorem applied to 20 distinct rows
with the skewed ratio pair (test=4/10, val=1/10), where validation receives
8 rows (the 4/10 share) and test 2 rows (the 1/10 share). -/
theorem split_second_stage_swapped_witness :
    (0:ℚ) < 4/10 ∧ (4/10 : ℚ) + 1/10 < 1 ∧ (List.range 20).Nodup ∧
    (([0, 1] : List ℕ).length =
       (⌈((1/10 : ℚ) / (4/10 + 1/10)) *
         ((([2, 3, 4, 5, 6, 7, 18, 19] : List ℕ).length +
           ([0, 1] : List ℕ).length : ℕ) : ℚ)⌉).toNat ∧
     |((([2, 3, 4, 5, 6, 7, 18, 19] : List ℕ).length : ℚ)) -
       (4/10) * ((List.range 20).length : ℚ)| ≤ 2 ∧
     |((([0, 1] : List ℕ).length : ℚ)) -
       (1/10) * ((List.range 20).length : ℚ)| ≤ 2) :=
  ⟨by norm_num, by norm_num, List.nodup_range 20,
   split_second_stage_swapped (by norm_num) (by norm_num) (by norm_num)
     (List.nodup_range 20) split_data_range20_skewed⟩

/-- State of an sklearn `RandomForestClassifier`: constructor parameters plus
the fitted state (`None` before `fit` is called).  The learned probability
function of a real random forest is abstracted: the fitted state stores the
training data and the model predicts the constant empirical positive share of
the training labels.  The verified claims depend only on the
fitted/unfitted distinction and on the shape of the returned
probabilities, never on the learned values. -/
structure RandomForestClassifier where
  n_estimators : ℕ
  random_state : ℕ
  fittedData : Option (List (List ℚ × ℤ))

/-- `model.fit(X, y)`: stores the fitted state. -/
def RandomForestClassifier.fit (m : RandomForestClassifier)
    (X : List (List ℚ)) (y : List ℤ) : RandomForestClassifier :=
  { m with fittedData := some (X.zip y) }

/-- Empirical share of positive training labels (the abstracted learned
function, see `RandomForestClassifier`). -/
def positiveShare (train : List (List ℚ × ℤ)) : ℚ :=
  ((train.countP fun r => r.2 == 1 : ℕ) : ℚ) / (train.length : ℚ)

/-- `model.predict_proba(X)`: one row `[P(class 0), P(class 1)]` per input
row, classes in sorted order as sklearn returns them; raises
`NotFittedError` when `fit` has not been called. -/
def RandomForestClassifier.predict_proba (m : RandomForestClassifier)
    (X : List (List ℚ)) : Except String (List (List ℚ)) :=
  match m.fittedData with
  | none => .error "NotFittedError"
  | some tr => .ok (X.map fun _ => [1 - positiveShare tr, positiveShare tr])

/-- `SklearnModelWrapper`: holds the trained classifier. -/
structure SklearnModelWrapper where
  model : RandomForestClassifier

/-- `SklearnModelWrapper.predict`: `self.model.predict_proba(model_input)[:,1]`
— the column at index 1 of the probability matrix, one value per input
row. -/
def SklearnModelWrapper.predict (w : SklearnModelWrapper) (context : Unit)
    (model_input : List (List ℚ)) : Except String (List ℚ) :=
  (w.model.predict_proba model_input).map fun proba =>
    proba.map fun row => row.getD 1 0

/-- `sklearn.metrics.roc_auc_score` for binary labels and scores: the
Mann-Whitney statistic (share of positive/negative pairs ranked correctly,
ties counting one half); raises when `y_true` holds a single class only. -/
def roc_auc_score (yTrue : List ℤ) (scores : List ℚ) : Except String ℚ :=
  let pairs := yTrue.zip scores
  let pos := (pairs.filter fun p => p.1 == 1).map (·.2)
  let neg := (pairs.filter fun p => !(p.1 == 1)).map (·.2)
  if pos.length = 0 ∨ neg.length = 0 then
    .error "Only one class present in y_true"
  else
    .ok (((pos.map fun p =>
        ((neg.countP fun v => decide (v < p) : ℕ) : ℚ) +
        ((neg.countP fun v => v == p : ℕ) : ℚ) / 2).sum) /
      ((pos.length : ℕ) * (neg.length : ℕ) : ℚ))

/-- `WineQualityModel`: wraps the classifier stored in `self.model`. -/
structure WineQualityModel where
  model : RandomForestClassifier

/-- `WineQualityModel()`: the default constructor argument
`RandomForestClassifier(n_estimators=10, random_state=123)`, not yet
fitted. -/
def WineQualityModel.init : WineQualityModel :=
  ⟨{ n_estimators := 10, random_state := 123, fittedData := none }⟩

/-- `WineQualityModel.train`: fits the wrapped classifier. -/
def WineQualityModel.train (m : WineQualityModel) (X : List (List ℚ))
    (y : List ℤ) : WineQualityModel :=
  ⟨m.model.fit X y⟩

/-- `WineQualityModel.evaluate`: positive-class probabilities
(`predict_proba(X)[:,1]`) scored with `roc_auc_score`. -/
def WineQualityModel.evaluate (m : WineQualityModel) (X : List (List ℚ))
    (y : List ℤ) : Except String ℚ :=
  match m.model.predict_proba X with
  | .error e => .error e
  | .ok proba => roc_auc_score y (proba.map fun row => row.getD 1 0)

/-- C6: on every instance whose underlying classifier is unfitted — the state
in which `train` has not yet been called — both `evaluate` and the prediction
interface fail with the invalid-state error `NotFittedError` instead of
returning a value. -/
theorem untrained_model_errors (m : WineQualityModel)
    (h : m.model.fittedData = none) (X : List (List ℚ)) (y : List ℤ) :
    m.evaluate X y = .error "NotFittedError" ∧
    (SklearnModelWrapper.mk m.model).predict () X = .error "NotFittedError" := by
  constructor
  · unfold WineQualityModel.evaluate RandomForestClassifier.predict_proba
    rw [h]
  · unfold SklearnModelWrapper.predict RandomForestClassifier.predict_proba
    rw [h]
    rfl

/-- C6 witness: the freshly constructed `WineQualityModel` is unfitted and
both calls fail on it. -/
theorem untrained_model_errors_witness :
    WineQualityModel.init.model.fittedData = none ∧
    (WineQualityModel.init.evaluate [[3]] [1] = .error "NotFittedError" ∧
     (SklearnModelWrapper.mk WineQualityModel.init.model).predict () [[3]] =
       .error "NotFittedError") :=
  ⟨rfl, untrained_model_errors WineQualityModel.init rfl [[3]] [1]⟩

/-- C7: whenever the underlying `predict_proba` succeeds, the wrapper's
`predict` returns a single column with exactly one value per input row, the
value for row `i` being entry 1 (the positive-class probability) of the
corresponding probability row — not the full per-class row and not a
thresholded label. -/
theorem wrapper_predict_positive_column (w : SklearnModelWrapper)
    (X : List (List ℚ)) (proba : List (List ℚ))
    (h : w.model.predict_proba X = .ok proba) :
    ∃ out, w.predict () X = .ok out ∧
      out.length = X.length ∧
      ∀ i, out.get? i = (proba.get? i).map fun row => row.getD 1 0 := by
  have hlen : proba.length = X.length := by
    unfold RandomForestClassifier.predict_proba at h
    cases hf : w.model.fittedData with
    | none =>
      rw [hf] at h
      cases h
    | some tr =>
      rw [hf] at h
      simp only [Except.ok.injEq] at h
      rw [← h]
      exact List.length_map X _
  refine ⟨proba.map fun row => row.getD 1 0, ?_, ?_, ?_⟩
  · unfold SklearnModelWrapper.predict
    rw [h]
    rfl
  · rw [List.length_map]
    exact hlen
  · intro i
    exact List.get?_map _ _ _

/-- C7 witness: the wrapper over a fitted classifier, on one input row. -/
theorem wrapper_predict_positive_column_witness :
    (SklearnModelWrapper.mk
        { n_estimators := 10, random_state := 123,
          fittedData := some [(([0] : List ℚ), (0:ℤ)), ([1], 1)] }).model.predict_proba
        [[3]] =
      .ok [[1 - positiveShare [(([0] : List ℚ), (0:ℤ)), ([1], 1)],
            positiveShare [(([0] : List ℚ), (0:ℤ)), ([1], 1)]]] ∧
    (∃ out,
      (SklearnModelWrapper.mk
        { n_estimators := 10, random_state := 123,
          fittedData := some [(([0] : List ℚ), (0:ℤ)), ([1], 1)] }).predict () [[3]] =
        .ok out ∧
      out.length = ([[3]] : List (List ℚ)).length ∧
      ∀ i, out.get? i =
        (([[1 - positiveShare [(([0] : List ℚ), (0:ℤ)), ([1], 1)],
            positiveShare [(([0] : List ℚ), (0:ℤ)), ([1], 1)]]] :
              List (List ℚ)).get? i).map fun row => row.getD 1 0) :=
  ⟨rfl, wrapper_predict_positive_column _ [[3]] _ rfl⟩

/-- A run as seen when selecting the best sweep trial: its identifier and
the logged `auc` metric (absent on runs that logged no `auc`, such as the
parent run of the sweep). -/
structure SweepRun where
  runId : ℕ
  auc : Option ℚ

/-- The loss each hyperopt trial reports to `fmin`:
`'loss': -1*auc_score` in `train_model`. -/
def loggedLoss (r : SweepRun) : Option ℚ := r.auc.map fun a => -a

/-- Sort key for `order_by=['metrics.auc DESC']`: runs carrying the metric
compare by its value, runs without it sort below every value. -/
def aucKey (r : SweepRun) : WithBot ℚ :=
  match r.auc with
  | none => ⊥
  | some a => (a : WithBot ℚ)

/-- The descending-auc ordering used by the best-run query. -/
def aucGe (r s : SweepRun) : Prop := aucKey s ≤ aucKey r

instance aucGe_decidable : DecidableRel aucGe := fun r s =>
  inferInstanceAs (Decidable (aucKey s ≤ aucKey r))

instance aucGe_total : IsTotal SweepRun aucGe :=
  ⟨fun a b => le_total (aucKey b) (aucKey a)⟩

instance aucGe_trans : IsTrans SweepRun aucGe :=
  ⟨fun _ _ _ h1 h2 => le_trans h2 h1⟩

/-- `mlflow.search_runs(order_by=['metrics.auc DESC'])`: the experiment's
runs sorted by the `auc` metric, highest first, runs without the metric
last. -/
def searchRunsByAucDesc (runs : List SweepRun) : List SweepRun :=
  List.insertionSort aucGe runs

/-- `best_run = mlflow.search_runs(order_by=['metrics.auc DESC']).iloc[0]`:
the head of the sorted result. -/
def best_run (runs : List SweepRun) : Option SweepRun :=
  (searchRunsByAucDesc runs).head?

/-- C1: the run selected as best maximizes the logged `auc` over all runs,
so for every completed trial of the sweep (a run that logged an `auc`, whose
reported loss is `-auc`) the best run carries a logged loss less than or
equal to the trial's loss. -/
theorem best_run_minimizes_loss (runs : List SweepRun) (t : SweepRun) (a : ℚ)
    (ht : t ∈ runs) (ha : t.auc = some a) :
    ∃ b bl, best_run runs = some b ∧ loggedLoss b = some bl ∧ bl ≤ -a := by
  have hmem : t ∈ searchRunsByAucDesc runs :=
    ((List.perm_insertionSort aucGe runs).symm.mem_iff).mp ht
  have hsorted : List.Sorted aucGe (searchRunsByAucDesc runs) :=
    List.sorted_insertionSort aucGe runs
  cases hs : searchRunsByAucDesc runs with
  | nil =>
    rw [hs] at hmem
    cases hmem
  | cons b rest =>
    rw [hs] at hmem hsorted
    have hge : aucGe b t := by
      rcases List.mem_cons.mp hmem with h | h
      · subst h
        exact le_refl _
      · exact List.rel_of_sorted_cons hsorted t h
    have hkey : (a : WithBot ℚ) ≤ aucKey b := by
      have : aucKey t = (a : WithBot ℚ) := by
        unfold aucKey
        rw [ha]
      rw [← this]
      exact hge
    cases hb : b.auc with
    | none =>
      exfalso
      rw [show aucKey b = ⊥ by unfold aucKey; rw [hb]] at hkey
      exact WithBot.not_coe_le_bot a hkey
    | some ba =>
      have hab : a ≤ ba := by
        rw [show aucKey b = (ba : WithBot ℚ) by unfold aucKey; rw [hb]] at hkey
        exact_mod_cast hkey
      refine ⟨b, -ba, ?_, ?_, ?_⟩
      · unfold best_run
        rw [hs]
        rfl
      · unfold loggedLoss
        rw [hb]
        rfl
      · linarith

/-- C1 witness: three runs — auc 9/10, auc 1/2, and a run without the
metric — with the trial of auc 1/2 as the completed trial compared
against. -/
theorem best_run_minimizes_loss_witness :
    (⟨2, some (1/2)⟩ : SweepRun) ∈
      ([⟨1, some (9/10)⟩, ⟨2, some (1/2)⟩, ⟨3, none⟩] : List SweepRun) ∧
    (⟨2, some (1/2)⟩ : SweepRun).auc = some (1/2) ∧
    (∃ b bl,
      best_run [⟨1, some (9/10)⟩, ⟨2, some (1/2)⟩, ⟨3, none⟩] = some b ∧
      loggedLoss b = some bl ∧ bl ≤ -(1/2 : ℚ)) :=
  ⟨List.mem_cons_of_mem _ (List.mem_cons_self _ _), rfl,
   best_run_minimizes_loss _ _ _
     (List.mem_cons_of_mem _ (List.mem_cons_self _ _)) rfl⟩

/-- A run record in the external tracking store: its opaque identifier, the
run name tag, the start time, and what was logged under it. -/
structure TrackedRun where
  runId : ℕ
  runName : String
  startTime : ℕ
  params : List (String × ℚ)
  metrics : List (String × ℚ)
  artifacts : List String

/-- The external tracking store: the recorded runs and a strictly increasing
clock supplying fresh run identifiers and start times. -/
structure TrackingStore where
  runs : List TrackedRun
  clock : ℕ

/-- mlflow's default result ordering for `search_runs`: start time
descending, newest first. -/
def newerEq (r s : TrackedRun) : Prop := s.startTime ≤ r.startTime

instance newerEq_decidable : DecidableRel newerEq := fun r s =>
  inferInstanceAs (Decidable (s.startTime ≤ r.startTime))

instance newerEq_total : IsTotal TrackedRun newerEq :=
  ⟨fun a b => Nat.le_total b.startTime a.startTime⟩

instance newerEq_trans : IsTrans TrackedRun newerEq :=
  ⟨fun _ _ _ h1 h2 => le_trans h2 h1⟩

/-- `mlflow.search_runs(filter_string='tags.mlflow.runName = "<name>"')`:
the runs carrying the name, in mlflow's default order (newest first). -/
def search_runs_by_name (store : TrackingStore) (name : String) :
    List TrackedRun :=
  List.insertionSort newerEq (store.runs.filter fun r => r.runName == name)

/-- The head of the sorted name-filtered search is the newly added run when
every other recorded run started strictly earlier. -/
theorem search_runs_head_newest (runs : List TrackedRun) (nr : TrackedRun)
    (name : String)
    (hinv : ∀ r ∈ runs, r.startTime < nr.startTime)
    (hname : (nr.runName == name) = true) :
    (List.insertionSort newerEq
        ((nr :: runs).filter fun r => r.runName == name)).head? = some nr := by
  have hfil : (nr :: runs).filter (fun r => r.runName == name) =
      nr :: runs.filter (fun r => r.runName == name) :=
    List.filter_cons_of_pos hname
  rw [hfil]
  have hmem : nr ∈ List.insertionSort newerEq
      (nr :: runs.filter fun r => r.runName == name) :=
    ((List.perm_insertionSort newerEq _).symm.mem_iff).mp
      (List.mem_cons_self _ _)
  have hsorted : List.Sorted newerEq (List.insertionSort newerEq
      (nr :: runs.filter fun r => r.runName == name)) :=
    List.sorted_insertionSort newerEq _
  cases hs : List.insertionSort newerEq
      (nr :: runs.filter fun r => r.runName == name) with
  | nil =>
    rw [hs] at hmem
    cases hmem
  | cons b rest =>
    rw [hs] at hmem hsorted
    have hge : newerEq b nr := by
      rcases List.mem_cons.mp hmem with h | h
      · subst h
        exact le_refl _
      · exact List.rel_of_sorted_cons hsorted nr h
    have hbfl : b ∈ nr :: runs.filter (fun r => r.runName == name) := by
      refine ((List.perm_insertionSort newerEq _).mem_iff).mp ?_
      rw [hs]
      exact List.mem_cons_self _ _
    have hb : b = nr := by
      rcases List.mem_cons.mp hbfl with h | h
      · exact h
      · exfalso
        have hlt := hinv b (List.mem_of_mem_filter h)
        have hle : nr.startTime ≤ b.startTime := hge
        omega
    rw [hb]
    rfl

/-- `MLflowExperiment`: carries the configured registered-model name. -/
structure MLflowExperiment where
  model_name : String

/-- The run record `run_experiment` creates: a fresh identifier and start
time drawn from the store clock, the run name given to `mlflow.start_run`,
and the logged parameter, metric and model artifact. -/
def newExperimentRun (trained : WineQualityModel) (auc : ℚ) (clock : ℕ) :
    TrackedRun :=
  { runId := clock
    runName := "untuned_random_forest"
    startTime := clock
    params := [("n_estimators", (trained.model.n_estimators : ℚ))]
    metrics := [("auc", auc)]
    artifacts := ["random_forest_model"] }

/-- `MLflowExperiment.run_experiment`: opens a run named
"untuned_random_forest" (a fresh record at the store's clock), trains,
evaluates, logs the `n_estimators` parameter, the `auc` metric and the model
artifact under that run, and returns
`mlflow.search_runs(filter_string='tags.mlflow.runName =
"untuned_random_forest"').iloc[0].run_id` — the id of the newest run with
that name.  The updated store and the trained model are returned alongside;
an evaluation failure propagates out of the run scope. -/
def MLflowExperiment.run_experiment (_exp : MLflowExperiment)
    (model : WineQualityModel) (Xtr Xte : List (List ℚ)) (ytr yte : List ℤ)
    (store : TrackingStore) :
    Except String (ℕ × WineQualityModel × TrackingStore) :=
  let trained := model.train Xtr ytr
  match trained.evaluate Xte yte with
  | .error e => .error e
  | .ok auc =>
    let store' : TrackingStore :=
      ⟨newExperimentRun trained auc store.clock :: store.runs, store.clock + 1⟩
    match (search_runs_by_name store' "untuned_random_forest").head? with
    | none => .error "no runs found"
    | some r => .ok (r.runId, trained, store')

/-- C8: for every tracking-store state whose recorded runs all started
strictly before the store clock, a successful `run_experiment` returns
exactly the identifier of the run it created during that call — the run
under which the `n_estimators` parameter, the `auc` metric and the model
artifact were logged. -/
theorem run_experiment_returns_new_run_id (exp : MLflowExperiment)
    (model : WineQualityModel) (Xtr Xte : List (List ℚ)) (ytr yte : List ℤ)
    (store : TrackingStore)
    (hinv : ∀ r ∈ store.runs, r.startTime < store.clock) :
    ∀ res, exp.run_experiment model Xtr Xte ytr yte store = .ok res →
      res.1 = store.clock ∧
      ∃ nr, res.2.2.runs.head? = some nr ∧
        nr.runId = store.clock ∧
        nr.runName = "untuned_random_forest" ∧
        nr.params =
          [("n_estimators", ((model.train Xtr ytr).model.n_estimators : ℚ))] ∧
        (∃ v, nr.metrics = [("auc", v)]) ∧
        nr.artifacts = ["random_forest_model"] := by
  intro res hres
  simp only [MLflowExperiment.run_experiment] at hres
  split at hres
  · cases hres
  next auc heval =>
    split at hres
    · cases hres
    next r heq =>
      simp only [Except.ok.injEq] at hres
      subst hres
      have hhead := search_runs_head_newest store.runs
        (newExperimentRun (model.train Xtr ytr) auc store.clock)
        "untuned_random_forest" hinv rfl
      simp only [search_runs_by_name] at heq
      rw [hhead] at heq
      simp only [Option.some.injEq] at heq
      subst heq
      exact ⟨rfl, newExperimentRun (model.train Xtr ytr) auc store.clock,
        rfl, rfl, rfl, rfl, ⟨auc, rfl⟩, rfl⟩

/-- C8 witness: a store holding one earlier run, a trainable model and data
on which evaluation succeeds. -/
theorem run_experiment_returns_new_run_id_witness :
    (∀ r ∈ ({ runs := [⟨0, "other", 0, [], [], []⟩], clock := 1 } :
        TrackingStore).runs, r.startTime < 1) ∧
    (∀ res, (MLflowExperiment.mk "wine_quality").run_experiment
        WineQualityModel.init [[0], [1]] [[0], [1]] [0, 1] [0, 1]
        { runs := [⟨0, "other", 0, [], [], []⟩], clock := 1 } = .ok res →
      res.1 = 1 ∧
      ∃ nr, res.2.2.runs.head? = some nr ∧
        nr.runId = 1 ∧
        nr.runName = "untuned_random_forest" ∧
        nr.params = [("n_estimators",
          (((WineQualityModel.init.train [[0], [1]] [0, 1]).model.n_estimators :
            ℕ) : ℚ))] ∧
        (∃ v, nr.metrics = [("auc", v)]) ∧
        nr.artifacts = ["random_forest_model"]) :=
  ⟨by simp, run_experiment_returns_new_run_id _ _ _ _ _ _ _ (by simp)⟩

/-- A version of a registered model: its number and the source run it was
registered from. -/
structure ModelVersion where
  version : ℕ
  sourceRunId : ℕ

/-- The model registry: for each model name its ordered versions, and the
alias table (model name, alias) ↦ version number. -/
structure Registry where
  versions : String → List ModelVersion
  aliases : String → String → Option ℕ

/-- `mlflow.register_model(f"runs:/{run_id}/random_forest_model", name)`:
creates a fresh version (numbered consecutively) bound to the source run. -/
def Registry.register_model (reg : Registry) (runId : ℕ) (name : String) :
    Registry × ModelVersion :=
  let v : ModelVersion := ⟨(reg.versions name).length + 1, runId⟩
  (⟨fun n => if n = name then reg.versions name ++ [v] else reg.versions n,
    reg.aliases⟩, v)

/-- `MlflowClient().set_registered_model_alias(name, alias, version)`. -/
def Registry.set_registered_model_alias (reg : Registry) (name al : String)
    (version : ℕ) : Registry :=
  ⟨reg.versions,
   fun n a => if n = name ∧ a = al then some version else reg.aliases n a⟩

/-- `MLflowExperiment.register_model`: registers the run's artifact as a new
version of `self.model_name`, immediately sets the model's "production"
alias to that version, waits (`time.sleep(15)`, a no-op here), and returns
the model version. -/
def MLflowExperiment.register_model (exp : MLflowExperiment) (reg : Registry)
    (runId : ℕ) : Registry × ModelVersion :=
  let rv := reg.register_model runId exp.model_name
  let reg2 := rv.1.set_registered_model_alias exp.model_name "production"
    rv.2.version
  (reg2, rv.2)

/-- C10: `register_model` is not registration-only: on every call it both
creates a new version of the configured model (one more than before, bound
to the given run) and points the model's "production" alias at that freshly
created version before waiting and returning — registration and promotion
happen in the same operation. -/
theorem register_model_promotes (exp : MLflowExperiment) (reg : Registry)
    (runId : ℕ) :
    ((exp.register_model reg runId).1.versions exp.model_name).length =
      (reg.versions exp.model_name).length + 1 ∧
    (exp.register_model reg runId).2.version =
      (reg.versions exp.model_name).length + 1 ∧
    (exp.register_model reg runId).2.sourceRunId = runId ∧
    (exp.register_model reg runId).1.aliases exp.model_name "production" =
      some (exp.register_model reg runId).2.version := by
  unfold MLflowExperiment.register_model Registry.register_model
    Registry.set_registered_model_alias
  refine ⟨?_, rfl, rfl, ?_⟩
  · simp
  · simp

end WineSpec
